import Mathlib

/-!
Verification of the PulseFM MPX/RDS encoder core against its specification.

The Rust sources are shallowly embedded: machine integers (`u8`, `u16`,
`usize`) become `Nat` with explicit wrap-around (`% 2^16`) where the source
can overflow, `f32` audio samples and levels become `ℚ` (every constant that
matters to the claims — carrier-table entries, the 19/16 resampler step, the
AF frequency grid — is exactly representable, and all comparisons the claims
exercise are decided identically in `ℚ` and in `f32`), and the ambient
wall-clock consulted by the clock-time (CT) path is threaded in as an
explicit `TimeInfo` input.

Two shipped data assets (the Unicode→RDS character map and the biphase
waveform taps) are not part of the sources; they are kept abstract as
parameters (`cmap`, `filter`): no claim below depends on their contents.
-/

namespace PulseFM

/-! ## Constants from `src/rds.rs` -/

def RT_LENGTH : Nat := 64
def PS_LENGTH : Nat := 8
def GROUP_LENGTH : Nat := 4

def POLY : Nat := 0x1B9
def POLY_DEG : Nat := 10
def MSB_BIT : Nat := 0x8000
def BLOCK_SIZE : Nat := 16

def BITS_PER_GROUP : Nat := GROUP_LENGTH * (BLOCK_SIZE + POLY_DEG)
def SAMPLES_PER_BIT : Nat := 192

def OFFSET_WORDS : List Nat := [0x0FC, 0x198, 0x168, 0x1B4]

/-! ## CRC (`RdsGenerator::crc`, rds.rs lines 291–305)

`crc` and `block` are Rust `u16`; the left shifts wrap at `2^16`.  One
iteration of the `for` loop over the 16 block bits: -/

/-- One iteration of the CRC loop: takes `(crc, block)` to the next pair. -/
def crcStep (p : Nat × Nat) : Nat × Nat :=
  let crc := p.1
  let block := p.2
  let bit : Bool := block &&& MSB_BIT ≠ 0
  let block2 := (block <<< 1) % 65536
  let msb := (crc >>> (POLY_DEG - 1)) &&& 1
  let crc2 := (crc <<< 1) % 65536
  let crc3 := if xor (msb ≠ 0) bit then crc2 ^^^ POLY else crc2
  (crc3, block2)

/-- `RdsGenerator::crc`: 16 LFSR rounds, MSB first, over the 16-bit block. -/
def crc (block : Nat) : Nat :=
  (Nat.iterate crcStep BLOCK_SIZE (0, block % 65536)).1

/-! ## Group serialization (`RdsGenerator::get_rds_group`, rds.rs 425–439)

Each block contributes 16 info bits (testing bit 15 and shifting the `u16`
left) followed by 10 checkword bits (testing bit 9 and shifting left), where
the checkword is `crc(block) ^^^ OFFSET_WORDS[i]`. -/

/-- The inner bit-emission loop: emit `n` bits of `b`, each time testing bit
`top` and then shifting left with `u16` wrap-around. -/
def emitBits (top : Nat) : Nat → Nat → List Nat
  | 0, _ => []
  | n + 1, b =>
      (if b &&& (1 <<< top) ≠ 0 then 1 else 0) :: emitBits top n ((b <<< 1) % 65536)

/-- Serialization of one block at position `i`: 16 info bits then the 10-bit
checkword `crc(block) ^^^ OFFSET_WORDS[i]`. -/
def serializeBlock (i : Nat) (block : Nat) : List Nat :=
  let b := block % 65536
  let check := crc b ^^^ OFFSET_WORDS.getD i 0
  emitBits (BLOCK_SIZE - 1) BLOCK_SIZE b ++ emitBits (POLY_DEG - 1) POLY_DEG check

/-- The serialization loop of `get_rds_group`: all four blocks in order. -/
def serializeGroup (blocks : List Nat) : List Nat :=
  (List.range GROUP_LENGTH).flatMap (fun i => serializeBlock i (blocks.getD i 0))

/-- MSB-first binary decoding of a bit list (each entry 0 or 1). -/
def fromBits (bits : List Nat) : Nat :=
  bits.foldl (fun acc b => 2 * acc + b) 0

/-! ## `RdsGenerator::set_group_mix` (rds.rs 208–217) -/

/-- The group cycle built by `set_group_mix`: `max c0 1` entries `0`, then
`max c2 1` entries `2`, then `c4` entries `4` (the source guards the third
extend with `count_4a > 0`, which is the same as replicating `c4` times). -/
def setGroupMix (count0a count2a count4a : Nat) : List Nat :=
  List.replicate (max count0a 1) 0 ++ List.replicate (max count2a 1) 2 ++
    (if count4a > 0 then List.replicate count4a 4 else [])

/-! ## `RdsGenerator::set_af_list_mhz` (rds.rs 231–261)

Frequencies are `f32` MHz values; here `ℚ`.  `f32::round` rounds half away
from zero. -/

/-- Rust `f32::round` (half away from zero), on `ℚ`, returning `ℤ`. -/
def roundHalfAway (q : ℚ) : ℤ :=
  if 0 ≤ q then ⌊q + 1/2⌋ else -⌊-q + 1/2⌋

/-- The per-frequency filter/encode of `set_af_list_mhz`: drop out-of-band
frequencies, code `round((f − 87.6) × 10) + 1`, keep codes in `[1, 204]`. -/
def afCodes (freqs : List ℚ) : List Nat :=
  freqs.foldr
    (fun mhz acc =>
      if mhz < 876/10 ∨ mhz > 1079/10 then acc
      else
        let code := roundHalfAway ((mhz - 876/10) * 10) + 1
        if 1 ≤ code ∧ code ≤ 204 then code.toNat :: acc else acc)
    []

/-- Rust `Vec::dedup`: remove consecutive duplicates. -/
def dedupConsec : List Nat → List Nat
  | [] => []
  | [a] => [a]
  | a :: b :: rest =>
      if a = b then dedupConsec (b :: rest) else a :: dedupConsec (b :: rest)

/-- `set_af_list_mhz`: encode, sort (`Vec::sort`; on byte values every sort
yields the same list, here realized by insertion sort), dedup, cap at 25
codes, prepend `0xE0 + count`, pad with `0x00` to even length.  Returns the
stored `af_stream` (empty code list clears the stream). -/
def setAfListMhz (freqs : List ℚ) : List Nat :=
  let codes := dedupConsec ((afCodes freqs).insertionSort (· ≤ ·))
  if codes = [] then []
  else
    let count := min codes.length 25
    let stream := (0xE0 + count) :: codes.take count
    if stream.length % 2 ≠ 0 then stream ++ [0x00] else stream

/-! ## Character fill (`fill_rds_string`, rds_strings.rs)

The shipped Unicode→RDS map asset is not in the sources; the map is kept
abstract as `cmap : Nat → Option Nat` (codepoint to RDS byte).  A codepoint
absent from the map becomes `0x20`; the target is right-padded with `0x20`
to its full length. -/

/-- `fill_rds_string` on a target of length `len`, input as codepoints. -/
def fillRdsString (cmap : Nat → Option Nat) (len : Nat) (input : List Nat) : List Nat :=
  (input.take len).map (fun cp => (cmap cp).getD 0x20) ++
    List.replicate (len - min input.length len) 0x20

/-! ## `RdsGenerator::set_rt` (rds.rs 151–160) -/

/-- The RT-relevant part of `RdsParams`: the 64-byte RT buffer, the A/B
toggle and its auto flag. -/
structure RtParams where
  rt : List Nat
  ab : Bool
  abAuto : Bool
deriving DecidableEq, Repr

/-- `set_rt`: map and pad the new text to 64 bytes; if it differs from the
stored RT, flip `ab` when `ab_auto` is set and store the new buffer. -/
def setRt (cmap : Nat → Option Nat) (input : List Nat) (p : RtParams) : RtParams :=
  let next := fillRdsString cmap RT_LENGTH input
  if next ≠ p.rt then
    { p with
      ab := if p.abAuto then !p.ab else p.ab
      rt := next }
  else p

/-! ## Helper lemmas on bit serialization -/

theorem emitBits_length (top n b : Nat) : (emitBits top n b).length = n := by
  induction n generalizing b with
  | zero => rfl
  | succ n ih => simp [emitBits, ih]

theorem serializeBlock_length (i block : Nat) : (serializeBlock i block).length = 26 := by
  simp [serializeBlock, emitBits_length, BLOCK_SIZE, POLY_DEG]

theorem fromBits_foldl (ys : List Nat) (a : Nat) :
    ys.foldl (fun acc b => 2 * acc + b) a = a * 2 ^ ys.length + fromBits ys := by
  induction ys generalizing a with
  | nil => simp [fromBits]
  | cons y ys ih =>
      simp only [List.foldl_cons, List.length_cons, fromBits]
      rw [ih, ih (2 * 0 + y)]
      ring

theorem fromBits_cons (x : Nat) (xs : List Nat) :
    fromBits (x :: xs) = x * 2 ^ xs.length + fromBits xs := by
  simp only [fromBits, List.foldl_cons]
  simpa using fromBits_foldl xs x

theorem emitBits_eq_map (n : Nat) : ∀ (top b : Nat), top < 16 → n ≤ top + 1 →
    emitBits top n b = (List.range n).map (fun j => if b.testBit (top - j) then 1 else 0) := by
  induction n with
  | zero => intro top b _ _; rfl
  | succ n ih =>
      intro top b htop hn
      rw [List.range_succ_eq_map]
      simp only [List.map_cons, List.map_map]
      rw [emitBits, ih top ((b <<< 1) % 65536) htop (by omega)]
      congr 1
      · have h1 : (1 <<< top) = 2 ^ top := by simp [Nat.shiftLeft_eq]
        have h2 : b &&& 2 ^ top = (b.testBit top).toNat * 2 ^ top := Nat.and_two_pow b top
        have hpos : 0 < 2 ^ top := pow_pos (by norm_num) top
        rw [h1, h2]
        rcases h : b.testBit top with _ | _ <;> simp [h, Nat.pos_iff_ne_zero.mp hpos]
      · apply List.map_congr_left
        intro j hj
        simp only [List.mem_range] at hj
        have hshift : ((b <<< 1) % 65536).testBit (top - j) = b.testBit (top - j - 1) := by
          have h65536 : (65536 : Nat) = 2 ^ 16 := by norm_num
          rw [h65536, Nat.testBit_mod_two_pow, Nat.testBit_shiftLeft]
          have hlt : top - j < 16 := by omega
          have hge : 1 ≤ top - j := by omega
          simp [hlt, hge]
        simp only [Function.comp, hshift, Nat.sub_sub]

theorem fromBits_testBit_range (n : Nat) : ∀ (b : Nat),
    fromBits ((List.range n).map (fun j => if b.testBit (n - 1 - j) then 1 else 0)) =
      b % 2 ^ n := by
  induction n with
  | zero => intro b; simp [fromBits, Nat.mod_one]
  | succ n ih =>
      intro b
      rw [List.range_succ_eq_map]
      simp only [List.map_cons, List.map_map]
      rw [fromBits_cons]
      have htail : (List.range n).map
          ((fun j => if b.testBit (n + 1 - 1 - j) then 1 else 0) ∘ (· + 1)) =
          (List.range n).map (fun j => if b.testBit (n - 1 - j) then 1 else 0) := by
        apply List.map_congr_left
        intro j hj
        simp only [List.mem_range] at hj
        have hidx : n + 1 - 1 - (j + 1) = n - 1 - j := by omega
        simp only [Function.comp]
        rw [hidx]
      rw [htail, ih b]
      have hbit : b.testBit n = decide (b / 2 ^ n % 2 = 1) := Nat.testBit_to_div_mod (x := b)
      have hmod : b % 2 ^ (n + 1) = b % 2 ^ n + 2 ^ n * (b / 2 ^ n % 2) := by
        rw [pow_succ, Nat.mod_mul]
      have h01 : b / 2 ^ n % 2 = 0 ∨ b / 2 ^ n % 2 = 1 := Nat.mod_two_eq_zero_or_one _
      rcases h01 with h01 | h01 <;>
        · simp [hbit, h01, hmod, List.length_map, List.length_range]
          try ring

theorem fromBits_append (xs ys : List Nat) :
    fromBits (xs ++ ys) = fromBits xs * 2 ^ ys.length + fromBits ys := by
  simp only [fromBits, List.foldl_append]
  simpa using fromBits_foldl ys (fromBits xs)

theorem fromBits_emitBits (n b : Nat) (h1 : 0 < n) (h2 : n ≤ 16) :
    fromBits (emitBits (n - 1) n b) = b % 2 ^ n := by
  rw [emitBits_eq_map n (n - 1) b (by omega) (by omega)]
  exact fromBits_testBit_range n b

theorem crc_mod (b : Nat) : crc (b % 65536) = crc b := by
  simp [crc, Nat.mod_mod_of_dvd _ dvd_rfl]

theorem take26_append (A B : List Nat) (hA : A.length = 26) : (A ++ B).take 26 = A := by
  rw [← hA, List.take_left]

theorem drop26_append (A B : List Nat) (hA : A.length = 26) : (A ++ B).drop 26 = B := by
  rw [← hA, List.drop_left]

theorem serializeGroup_expand (blocks : List Nat) :
    serializeGroup blocks =
      serializeBlock 0 (blocks.getD 0 0) ++ (serializeBlock 1 (blocks.getD 1 0) ++
        (serializeBlock 2 (blocks.getD 2 0) ++ (serializeBlock 3 (blocks.getD 3 0) ++ []))) := by
  have hr : List.range GROUP_LENGTH = [0, 1, 2, 3] := rfl
  rw [serializeGroup, hr]
  simp only [List.flatMap_cons, List.flatMap_nil]

theorem serializeGroup_slice (blocks : List Nat) (i : Nat) (hi : i < 4) :
    ((serializeGroup blocks).drop (26 * i)).take 26 = serializeBlock i (blocks.getD i 0) := by
  have hsg := serializeGroup_expand blocks
  have l0 := serializeBlock_length 0 (blocks.getD 0 0)
  have l1 := serializeBlock_length 1 (blocks.getD 1 0)
  have l2 := serializeBlock_length 2 (blocks.getD 2 0)
  rcases (by omega : i = 0 ∨ i = 1 ∨ i = 2 ∨ i = 3) with h | h | h | h <;> subst h
  · rw [hsg, show 26 * 0 = 0 from rfl, List.drop_zero]
    exact take26_append _ _ l0
  · rw [hsg, show 26 * 1 = 26 from rfl, drop26_append _ _ l0]
    exact take26_append _ _ l1
  · rw [hsg, show 26 * 2 = 26 + 26 from rfl, ← List.drop_drop, drop26_append _ _ l0,
      drop26_append _ _ l1]
    exact take26_append _ _ l2
  · rw [hsg, show 26 * 3 = 26 + (26 + 26) from rfl, ← List.drop_drop, ← List.drop_drop,
      drop26_append _ _ l0, drop26_append _ _ l1, drop26_append _ _ l2,
      List.append_nil]
    exact List.take_of_length_le (le_of_eq (serializeBlock_length 3 (blocks.getD 3 0)))

/-! ## Claim theorems: C2, C4, C5, C9 -/

/-- C2 — For every RDS group the generator emits, each of the four blocks is
serialized as 16 info bits followed by a 10-bit checkword equal to the CRC of
the info bits (polynomial 0x1B9, MSB-first) XORed with the offset word for
its block position from {0x0FC, 0x198, 0x168, 0x1B4}: the 26-bit slice at
position `26·i` of the serialized group is the MSB-first info bits followed
by the checkword bits, the first 16 bits decode back to the info word, and
the last 10 bits decode to `(crc(info) XOR offset_i) mod 2^10`. -/
theorem rds_block_checkword (blocks : List Nat) (i : Nat) (hi : i < 4)
    (hb : blocks.getD i 0 < 65536) :
    ((serializeGroup blocks).drop (26 * i)).take 26 =
      emitBits 15 16 (blocks.getD i 0) ++
        emitBits 9 10 (crc (blocks.getD i 0) ^^^ OFFSET_WORDS.getD i 0) ∧
    fromBits ((((serializeGroup blocks).drop (26 * i)).take 26).take 16) =
      blocks.getD i 0 ∧
    fromBits ((((serializeGroup blocks).drop (26 * i)).take 26).drop 16) =
      (crc (blocks.getD i 0) ^^^ OFFSET_WORDS.getD i 0) % 1024 := by
  have hslice := serializeGroup_slice blocks i hi
  have hmod : blocks.getD i 0 % 65536 = blocks.getD i 0 := Nat.mod_eq_of_lt hb
  have hsb : serializeBlock i (blocks.getD i 0) =
      emitBits 15 16 (blocks.getD i 0) ++
        emitBits 9 10 (crc (blocks.getD i 0) ^^^ OFFSET_WORDS.getD i 0) := by
    simp only [serializeBlock, BLOCK_SIZE, POLY_DEG, hmod, crc_mod]
  have hlen16 : (emitBits 15 16 (blocks.getD i 0)).length = 16 := emitBits_length _ _ _
  refine ⟨hslice.trans hsb, ?_, ?_⟩
  · rw [hslice, hsb, List.take_left' hlen16]
    have h16 := fromBits_emitBits 16 (blocks.getD i 0) (by norm_num) (by norm_num)
    rw [show (16 : Nat) - 1 = 15 from rfl] at h16
    rw [h16]
    have hb2 : blocks.getD i 0 < 2 ^ 16 := lt_of_lt_of_le hb (le_of_eq (by norm_num))
    exact Nat.mod_eq_of_lt hb2
  · rw [hslice, hsb, List.drop_left' hlen16]
    have h10 := fromBits_emitBits 10 (crc (blocks.getD i 0) ^^^ OFFSET_WORDS.getD i 0)
      (by norm_num) (by norm_num)
    rw [show (10 : Nat) - 1 = 9 from rfl] at h10
    rw [h10]
    norm_num

def witnessBlocks : List Nat := [0x7200, 0x0408, 0xCDCD, 0x2020]

/-- Witness for C2 at block position 1 of a concrete 0A group. -/
theorem rds_block_checkword_witness :
    ((serializeGroup witnessBlocks).drop (26 * 1)).take 26 =
      emitBits 15 16 (witnessBlocks.getD 1 0) ++
        emitBits 9 10 (crc (witnessBlocks.getD 1 0) ^^^ OFFSET_WORDS.getD 1 0) ∧
    fromBits ((((serializeGroup witnessBlocks).drop (26 * 1)).take 26).take 16) =
      witnessBlocks.getD 1 0 ∧
    fromBits ((((serializeGroup witnessBlocks).drop (26 * 1)).take 26).drop 16) =
      (crc (witnessBlocks.getD 1 0) ^^^ OFFSET_WORDS.getD 1 0) % 1024 :=
  rds_block_checkword witnessBlocks 1 (by norm_num) (by norm_num [witnessBlocks])

theorem afCodes_example : afCodes [98, 499/5, 98, 200] = [105, 123, 105] := by
  have h104 : roundHalfAway 104 = 104 := by
    unfold roundHalfAway
    norm_num
  have h122 : roundHalfAway 122 = 122 := by
    unfold roundHalfAway
    norm_num
  simp only [afCodes, List.foldr_cons, List.foldr_nil]
  norm_num [h104, h122]
  decide

theorem afStream_example : setAfListMhz [98, 499/5, 98, 200] = [0xE2, 0x69, 0x7B, 0x00] := by
  rw [setAfListMhz, afCodes_example]
  decide

/-- C4 counterexample — on the input list [98.0, 99.8, 98.0, 200.0] the code
does not store `[0xE2, 0x19, 0x7D]`: 98.0 encodes to `round((98.0−87.6)·10)+1
= 105 = 0x69` (not 0x19 = 25) and 99.8 to 123 = 0x7B (not 0x7D = 125), and
the odd 3-byte stream is padded with 0x00. -/
theorem afList_counterexample :
    setAfListMhz [98, 499/5, 98, 200] ≠ [0xE2, 0x19, 0x7D] := by
  rw [afStream_example]
  decide

/-- C4 amended — after `set_af_list_mhz([98.0, 99.8, 98.0, 200.0])` the
stored AF stream equals `[0xE2, 0x69, 0x7B, 0x00]` (codes 105 and 123), with
200.0 dropped as invalid and the duplicate 98.0 removed, and the stream has
even length (4) by the 0x00 pad rule. -/
theorem afList_amended :
    setAfListMhz [98, 499/5, 98, 200] = [0xE2, 0x69, 0x7B, 0x00] ∧
    (setAfListMhz [98, 499/5, 98, 200]).length % 2 = 0 := by
  rw [afStream_example]
  exact ⟨rfl, rfl⟩

/-- C5 — for every input string, `set_rt` with auto-toggle on flips `ab`
exactly once iff the character-mapped, space-padded 64-byte form of the new
text differs byte-for-byte from the current RT buffer; when they are equal
the whole parameter record (in particular `ab` and the RT buffer) is
unchanged. -/
theorem setRt_ab_flip (cmap : Nat → Option Nat) (s : List Nat) (p : RtParams)
    (h : p.abAuto = true) :
    (((setRt cmap s p).ab = !p.ab) ↔ fillRdsString cmap RT_LENGTH s ≠ p.rt) ∧
    (fillRdsString cmap RT_LENGTH s = p.rt → setRt cmap s p = p) := by
  unfold setRt
  by_cases hne : fillRdsString cmap RT_LENGTH s ≠ p.rt
  · simp [hne, h]
  · simp only [ne_eq, not_not] at hne
    simp [hne]

def cmapWitness : Nat → Option Nat := fun c => if c < 128 then some c else none

def rtParamsWitness : RtParams :=
  { rt := List.replicate RT_LENGTH 0x20, ab := false, abAuto := true }

/-- Witness for C5: a fresh RT buffer (64 spaces) and the text "A". -/
theorem setRt_ab_flip_witness :
    (((setRt cmapWitness [65] rtParamsWitness).ab = !rtParamsWitness.ab) ↔
      fillRdsString cmapWitness RT_LENGTH [65] ≠ rtParamsWitness.rt) ∧
    (fillRdsString cmapWitness RT_LENGTH [65] = rtParamsWitness.rt →
      setRt cmapWitness [65] rtParamsWitness = rtParamsWitness) :=
  setRt_ab_flip cmapWitness [65] rtParamsWitness rfl

/-- C9 — after `set_group_mix(c0, c2, c4)` the stored cycle is
`max c0 1` entries `0`, then `max c2 1` entries `2`, then `c4` entries `4`;
in particular the 2A count is also floored to 1, so the cycle always contains
a `2` entry and a pure-0A mix cannot be configured. -/
theorem setGroupMix_counts (c0 c2 c4 : Nat) :
    setGroupMix c0 c2 c4 =
      List.replicate (max c0 1) 0 ++ List.replicate (max c2 1) 2 ++
        List.replicate c4 4 ∧
    (setGroupMix c0 c2 c4).count 0 = max c0 1 ∧
    (setGroupMix c0 c2 c4).count 2 = max c2 1 ∧
    (setGroupMix c0 c2 c4).count 4 = c4 ∧
    2 ∈ setGroupMix c0 c2 c4 := by
  have hform : setGroupMix c0 c2 c4 =
      List.replicate (max c0 1) 0 ++ List.replicate (max c2 1) 2 ++
        List.replicate c4 4 := by
    unfold setGroupMix
    rcases Nat.eq_zero_or_pos c4 with h | h
    · simp [h]
    · simp [Nat.pos_iff_ne_zero.mp h, h]
  refine ⟨hform, ?_, ?_, ?_, ?_⟩
  · simp [hform, List.count_append, List.count_replicate]
  · simp [hform, List.count_append, List.count_replicate]
  · simp [hform, List.count_append, List.count_replicate]
  · rw [hform]
    have : 2 ∈ List.replicate (max c2 1) 2 :=
      List.mem_replicate.mpr ⟨by omega, rfl⟩
    simp [this]

/-! ## The full RDS generator state (`RdsGenerator`, rds.rs)

The wall clock consulted by the CT (clock-time) path is an external input;
it is threaded in explicitly as a `TimeInfo` per group request.  `mjd` is
the Modified Julian Date of the current UTC day (the source derives it from
`chrono::Utc::now()` against the 1858-11-17 epoch); `offsetSeconds` is the
local-minus-UTC offset in seconds (`Offset::fix().local_minus_utc()`). -/

structure TimeInfo where
  mjd : Nat
  hour : Nat
  minute : Nat
  offsetSeconds : Int
deriving DecidableEq, Repr

/-- `RdsParams` (rds.rs lines 21–35). -/
structure RdsParams where
  pi : Nat
  tp : Bool
  ta : Bool
  pty : Nat
  ms : Bool
  di : Nat
  ab : Bool
  abAuto : Bool
  ctEnabled : Bool
  afStream : List Nat
  ps : List Nat
  rt : List Nat
deriving DecidableEq, Repr

/-- `RdsParams::default` (rds.rs lines 37–55). -/
def RdsParams.default : RdsParams :=
  { pi := 0, tp := false, ta := false, pty := 0, ms := true, di := 0b1000,
    ab := false, abAuto := true, ctEnabled := true, afStream := [],
    ps := List.replicate PS_LENGTH 0x20, rt := List.replicate RT_LENGTH 0x20 }

/-- `RdsGenerator` (rds.rs lines 57–95).  Sample values are `ℚ`. -/
structure RdsGen where
  params : RdsParams
  state : Nat
  psState : Nat
  rtState : Nat
  latestMinutes : Int
  bitBuffer : List Nat
  bitPos : Nat
  sampleBuffer : List ℚ
  inSampleIndex : Nat
  outSampleIndex : Nat
  prevOutput : Nat
  curOutput : Nat
  curBit : Nat
  sampleCount : Nat
  inverting : Bool
  phase : Nat
  afPos : Nat
  psScroll : Option (List Nat)
  rtScroll : Option (List Nat)
  psScrollPos : Nat
  rtScrollPos : Nat
  psScrollIntervalSamples : Nat
  rtScrollIntervalSamples : Nat
  sampleTicks : Nat
  groupCycle : List Nat
  groupIndex : Nat
  ctIntervalGroups : Nat
  ctCounter : Nat
  psAltList : List (List Nat)
  psAltIndex : Nat
  psAltInterval : Nat
  psAltCounter : Nat
deriving DecidableEq, Repr

/-- `RdsGenerator::new` (rds.rs lines 98–141).  The biphase waveform asset is
not in the sources; its length is the parameter `filterSize`. -/
def RdsGen.new (filterSize : Nat) : RdsGen :=
  let sampleBufferSize := SAMPLES_PER_BIT + filterSize
  { params := RdsParams.default,
    state := 0, psState := 0, rtState := 0, latestMinutes := -1,
    bitBuffer := List.replicate BITS_PER_GROUP 0, bitPos := BITS_PER_GROUP,
    sampleBuffer := List.replicate sampleBufferSize 0,
    inSampleIndex := 0, outSampleIndex := sampleBufferSize - 1,
    prevOutput := 0, curOutput := 0, curBit := 0,
    sampleCount := SAMPLES_PER_BIT, inverting := false, phase := 0,
    afPos := 0, psScroll := none, rtScroll := none,
    psScrollPos := 0, rtScrollPos := 0,
    psScrollIntervalSamples := 228000 / 2, rtScrollIntervalSamples := 228000 / 2,
    sampleTicks := 0,
    groupCycle := [0, 0, 0, 0, 2], groupIndex := 0,
    ctIntervalGroups := 0, ctCounter := 0,
    psAltList := [], psAltIndex := 0, psAltInterval := 0, psAltCounter := 0 }

/-- `RdsGenerator::set_ps`. -/
def RdsGen.setPs (cmap : Nat → Option Nat) (input : List Nat) (g : RdsGen) : RdsGen :=
  { g with params := { g.params with ps := fillRdsString cmap PS_LENGTH input } }

/-- `RdsGenerator::set_rt` on the full parameter record (same logic as
`setRt`, rds.rs lines 151–160). -/
def setRtP (cmap : Nat → Option Nat) (input : List Nat) (p : RdsParams) : RdsParams :=
  let next := fillRdsString cmap RT_LENGTH input
  if next ≠ p.rt then
    { p with
      ab := if p.abAuto then !p.ab else p.ab
      rt := next }
  else p

/-- `RdsGenerator::set_ct_enabled`. -/
def RdsGen.setCtEnabled (enabled : Bool) (g : RdsGen) : RdsGen :=
  { g with params := { g.params with ctEnabled := enabled } }

/-- `RdsGenerator::set_group_mix` applied to the generator state. -/
def RdsGen.setGroupMixG (c0 c2 c4 : Nat) (g : RdsGen) : RdsGen :=
  { g with groupCycle := setGroupMix c0 c2 c4, groupIndex := 0 }

def boolBit (b : Bool) : Nat := cond b 1 0

/-- `RdsGenerator::fill_rds_ct_group` (rds.rs lines 307–331), with the
wall-clock data taken from `t`.  Returns blocks 1–3 (`u16` casts are
`% 65536`, Rust `i32` division truncates toward zero). -/
def fillRdsCtGroup (t : TimeInfo) (tp : Bool) (pty : Nat) : Nat × Nat × Nat :=
  let base := (4 <<< 12) ||| (boolBit tp <<< 10) ||| (pty <<< 5)
  let b1 := base ||| ((t.mjd >>> 15) % 65536)
  let b2 := ((t.mjd <<< 1) % 65536) ||| (t.hour >>> 4)
  let b3 := ((t.hour % 16) <<< 12) ||| (t.minute <<< 6)
  let offset := Int.tdiv t.offsetSeconds (30 * 60)
  let absOffset := offset.natAbs % 65536
  let b3 := b3 ||| absOffset
  let b3 := if offset < 0 then b3 ||| 0x20 else b3
  (b1, b2, b3)

/-- `RdsGenerator::get_rds_ct_group` (rds.rs lines 333–344): `none` when no
CT group is due (CT disabled, or the UTC minute is unchanged), otherwise the
updated state and the CT blocks 1–3. -/
def getRdsCtGroup (t : TimeInfo) (g : RdsGen) : Option (RdsGen × (Nat × Nat × Nat)) :=
  if !g.params.ctEnabled then none
  else if (t.minute : Int) = g.latestMinutes then none
  else some ({ g with latestMinutes := (t.minute : Int) },
    fillRdsCtGroup t g.params.tp g.params.pty)

/-- The PS-alternates block of `get_rds_group` (rds.rs lines 349–357). -/
def psAltStep (cmap : Nat → Option Nat) (g : RdsGen) : RdsGen :=
  if g.psAltInterval > 0 ∧ g.psAltList ≠ [] then
    let c := g.psAltCounter + 1
    if c ≥ g.psAltInterval then
      let idx := (g.psAltIndex + 1) % g.psAltList.length
      RdsGen.setPs cmap (g.psAltList.getD idx [])
        { g with psAltCounter := 0, psAltIndex := idx }
    else { g with psAltCounter := c }
  else g

/-- The periodic-CT block of `get_rds_group` (rds.rs lines 359–367):
returns the updated state, the `sent_ct` flag, and the CT blocks 1–3
(zeros when no CT was filled). -/
def ctIntervalStep (t : TimeInfo) (g : RdsGen) : RdsGen × Bool × (Nat × Nat × Nat) :=
  if g.ctIntervalGroups > 0 then
    let c := g.ctCounter + 1
    if c ≥ g.ctIntervalGroups then
      ({ g with ctCounter := 0 }, true, fillRdsCtGroup t g.params.tp g.params.pty)
    else ({ g with ctCounter := c }, false, (0, 0, 0))
  else (g, false, (0, 0, 0))

/-- The 0A block C (alternative frequencies) pairing of `get_rds_group`
(rds.rs lines 387–394). -/
def afBlockC (g : RdsGen) : RdsGen × Nat :=
  if g.params.afStream = [] then (g, 0xCDCD)
  else
    let len := g.params.afStream.length
    let af1 := g.params.afStream.getD (g.afPos % len) 0
    let af2 := g.params.afStream.getD ((g.afPos + 1) % len) 0
    ({ g with afPos := (g.afPos + 2) % len }, (af1 <<< 8) ||| af2)

/-- The 0A-group fill of `get_rds_group` (rds.rs lines 378–400). -/
def fill0A (g : RdsGen) : RdsGen × Nat × Nat × Nat :=
  let diBit := (g.params.di >>> (3 - g.psState)) &&& 1
  let b1 := (0 <<< 12) ||| (boolBit g.params.tp <<< 10) |||
    (g.params.pty <<< 5) ||| (boolBit g.params.ta <<< 4) |||
    (boolBit g.params.ms <<< 3) ||| (diBit <<< 2) ||| g.psState
  let r2 := afBlockC g
  let g := r2.1
  let p := g.psState * 2
  let b3 := (g.params.ps.getD p 0 <<< 8) ||| g.params.ps.getD (p + 1) 0
  let ps2 := g.psState + 1
  ({ g with psState := if ps2 ≥ 4 then 0 else ps2 }, b1, r2.2, b3)

/-- The 2A-group fill of `get_rds_group` (rds.rs lines 401–414). -/
def fill2A (g : RdsGen) : RdsGen × Nat × Nat × Nat :=
  let b1 := (2 <<< 12) ||| (boolBit g.params.tp <<< 10) |||
    (g.params.pty <<< 5) ||| (boolBit g.params.ab <<< 4) ||| g.rtState
  let p := g.rtState * 4
  let b2 := (g.params.rt.getD p 0 <<< 8) ||| g.params.rt.getD (p + 1) 0
  let b3 := (g.params.rt.getD (p + 2) 0 <<< 8) ||| g.params.rt.getD (p + 3) 0
  let rt2 := g.rtState + 1
  ({ g with rtState := if rt2 ≥ 16 then 0 else rt2 }, b1, b2, b3)

/-- The group-cycle block of `get_rds_group` (rds.rs lines 370–422):
select the cycle entry, fill the 0A/2A/4A blocks, advance `state`. -/
def cycleStep (t : TimeInfo) (g : RdsGen) : RdsGen × List Nat :=
  let groupType :=
    if g.groupCycle = [] then 0
    else g.groupCycle.getD (g.groupIndex % g.groupCycle.length) 0
  let g :=
    if g.groupCycle = [] then g
    else { g with groupIndex := (g.groupIndex + 1) % g.groupCycle.length }
  let r :=
    if groupType = 0 ∧ g.state < 4 then fill0A g
    else if groupType = 2 then fill2A g
    else if groupType = 4 then
      let blocks := fillRdsCtGroup t g.params.tp g.params.pty
      (g, blocks.1, blocks.2.1, blocks.2.2)
    else (g, 0, 0, 0)
  let g := r.1
  let st2 := g.state + 1
  ({ g with state := if st2 ≥ 5 then 0 else st2 },
    [g.params.pi, r.2.1, r.2.2.1, r.2.2.2])

/-- The scheduling and block-filling part of `RdsGenerator::get_rds_group`
(rds.rs lines 346–423): returns the updated state and the four 16-bit
blocks. -/
def getRdsGroupBlocks (cmap : Nat → Option Nat) (t : TimeInfo) (g : RdsGen) :
    RdsGen × List Nat :=
  let g := psAltStep cmap g
  let r := ctIntervalStep t g
  let g := r.1
  if r.2.1 then
    (g, [g.params.pi, r.2.2.1, r.2.2.2.1, r.2.2.2.2])
  else
    match getRdsCtGroup t g with
    | some (g2, blocks) => (g2, [g2.params.pi, blocks.1, blocks.2.1, blocks.2.2])
    | none => cycleStep t g

/-- `RdsGenerator::get_rds_group`: fill the blocks, then serialize them into
the 104-bit buffer. -/
def getRdsGroup (cmap : Nat → Option Nat) (t : TimeInfo) (g : RdsGen) :
    RdsGen × List Nat :=
  let r := getRdsGroupBlocks cmap t g
  (r.1, serializeGroup r.2)

/-! ## C3: the 0A branch is guarded by the vestigial `state < 4` counter

`state` is a counter incremented modulo 5 on every non-CT group; it is used
nowhere else in the source.  When the group cycle selects entry 0 while
`state = 4`, the 0A fill (rds.rs line 378, `group_type == 0 && self.state <
4`) is skipped, blocks B/C/D stay 0 and `ps_state` does not advance.  With
the default cycle (length 5) the two counters stay aligned and the guard
never fires; with `set_group_mix(2, 1, 0)` (cycle `[0, 0, 2]`, length 3) it
fires on the 5th group. -/

def cmapC3 : Nat → Option Nat := fun c => if c < 256 then some c else none

def timeC3 : TimeInfo := ⟨60000, 12, 30, 3600⟩

def genC3 : RdsGen :=
  RdsGen.setGroupMixG 2 1 0 (RdsGen.setCtEnabled false (RdsGen.new 1))

def stepC3 (g : RdsGen) : RdsGen := (getRdsGroupBlocks cmapC3 timeC3 g).1

def genC3fifth : RdsGen := stepC3^[4] genC3

/-- C3 — evaluation at the failing input: after `set_ct_enabled(false)`,
`set_group_mix(2, 1, 0)` and four emitted groups, the 5th group request sees
cycle entry 0 (and `ps_state = 3`, `state = 4`), yet the emitted blocks are
`[0, 0, 0, 0]`: block B does not encode a 0A group with the current PsState,
block D does not hold the PS characters at offset `PsState*2` (0x2020 for the
default all-space PS), and PsState does not advance — contradicting the
claim for this cycle produced by `set_group_mix`. -/
theorem groupCycle_state_guard_bug :
    genC3fifth.groupCycle.getD (genC3fifth.groupIndex % genC3fifth.groupCycle.length) 0
      = 0 ∧
    genC3fifth.psState = 3 ∧ genC3fifth.state = 4 ∧
    (getRdsGroupBlocks cmapC3 timeC3 genC3fifth).2 = [0, 0, 0, 0] ∧
    (getRdsGroupBlocks cmapC3 timeC3 genC3fifth).2.getD 3 0 ≠
      ((genC3fifth.params.ps.getD (genC3fifth.psState * 2) 0 <<< 8) |||
        genC3fifth.params.ps.getD (genC3fifth.psState * 2 + 1) 0) ∧
    (getRdsGroupBlocks cmapC3 timeC3 genC3fifth).1.psState = genC3fifth.psState := by
  decide

/-! ## The bit-to-sample shaper (`RdsGenerator::get_rds_samples`, rds.rs 442–528)

`get_rds_samples` loops one body per output sample; `stepSample` is that
body.  The biphase filter taps (a shipped asset) are the parameter
`filter`.  Scroll texts are byte lists (the source indexes
`padded.as_bytes()` and casts each byte to `char`, so the window entries
are the byte values as codepoints). -/

/-- The rolling window of `len` bytes over `text + "   "` starting at `pos`
(the scroll branches of `get_rds_samples`). -/
def scrollWindow (text : List Nat) (pos len : Nat) : List Nat :=
  let padded := text ++ [0x20, 0x20, 0x20]
  (List.range len).map (fun i => padded.getD ((pos + i) % padded.length) 0)

/-- Adding the (possibly inverted) filter taps into the circular accumulator
starting at index `start` (rds.rs lines 485–496). -/
def addFilter (buf : List ℚ) (start : Nat) (inv : Bool) (filter : List ℚ) : List ℚ :=
  (filter.foldl
    (fun (p : List ℚ × Nat) val =>
      let v := if inv then -val else val
      let buf2 := p.1.set p.2 (p.1.getD p.2 0 + v)
      let idx := p.2 + 1
      (buf2, if idx ≥ buf2.length then 0 else idx))
    (buf, start)).1

/-- The PS-scroll branch of the loop body (rds.rs lines 448–459). -/
def psScrollStep (cmap : Nat → Option Nat) (g : RdsGen) : RdsGen :=
  match g.psScroll with
  | some text =>
      if g.sampleTicks % g.psScrollIntervalSamples = 0 then
        let w := scrollWindow text g.psScrollPos PS_LENGTH
        let plen := (text ++ [0x20, 0x20, 0x20]).length
        RdsGen.setPs cmap w { g with psScrollPos := (g.psScrollPos + 1) % plen }
      else g
  | none => g

/-- The RT-scroll branch of the loop body (rds.rs lines 460–471); the
rewrite goes through `set_rt` (here `setRtP` on the parameter record). -/
def rtScrollStep (cmap : Nat → Option Nat) (g : RdsGen) : RdsGen :=
  match g.rtScroll with
  | some text =>
      if g.sampleTicks % g.rtScrollIntervalSamples = 0 then
        let w := scrollWindow text g.rtScrollPos RT_LENGTH
        let plen := (text ++ [0x20, 0x20, 0x20]).length
        { { g with rtScrollPos := (g.rtScrollPos + 1) % plen } with
          params := setRtP cmap w g.params }
      else g
  | none => g

/-- The bit-fetch branch of the loop body (rds.rs lines 472–505): when 192
samples have elapsed, fetch the next bit (producing a new group if the
buffer is exhausted), differentially encode it and mix the filter taps into
the accumulator. -/
def bitFetchStep (cmap : Nat → Option Nat) (filter : List ℚ) (t : TimeInfo)
    (g : RdsGen) : RdsGen :=
  if g.sampleCount ≥ SAMPLES_PER_BIT then
    let g :=
      if g.bitPos ≥ BITS_PER_GROUP then
        let r := getRdsGroup cmap t g
        { r.1 with bitBuffer := r.2, bitPos := 0 }
      else g
    let curBit := g.bitBuffer.getD g.bitPos 0
    let prevOutput := g.curOutput
    let curOutput := prevOutput ^^^ curBit
    let inverting := curOutput = 1
    let sampleBuffer := addFilter g.sampleBuffer g.inSampleIndex inverting filter
    let inIdx := g.inSampleIndex + SAMPLES_PER_BIT
    let inIdx := if inIdx ≥ sampleBuffer.length then inIdx - sampleBuffer.length else inIdx
    { g with
      curBit := curBit, prevOutput := prevOutput, curOutput := curOutput,
      inverting := inverting, sampleBuffer := sampleBuffer,
      inSampleIndex := inIdx, bitPos := g.bitPos + 1, sampleCount := 0 }
  else g

/-- The read-out stage of the loop body (rds.rs lines 507–526): read one
accumulator sample, zero the slot, gate by the 57 kHz phase counter. -/
def emitStage (g : RdsGen) : RdsGen × ℚ :=
  let out := g.sampleBuffer.getD g.outSampleIndex 0
  let sampleBuffer := g.sampleBuffer.set g.outSampleIndex 0
  let outIdx := g.outSampleIndex + 1
  let outIdx := if outIdx ≥ sampleBuffer.length then 0 else outIdx
  let out2 : ℚ :=
    match g.phase with
    | 0 => 0
    | 1 => out
    | 2 => 0
    | 3 => -out
    | _ => out
  let phase := g.phase + 1
  let phase := if phase ≥ 4 then 0 else phase
  ({ g with
      sampleBuffer := sampleBuffer, outSampleIndex := outIdx, phase := phase,
      sampleCount := g.sampleCount + 1 }, out2)

/-- One loop body of `get_rds_samples`: tick the scroll clocks, fetch a new
bit (and possibly a new group) when 192 samples have elapsed, read one
sample from the accumulator, and gate it by the 57 kHz phase counter. -/
def stepSample (cmap : Nat → Option Nat) (filter : List ℚ) (t : TimeInfo)
    (g : RdsGen) : RdsGen × ℚ :=
  emitStage (bitFetchStep cmap filter t
    (rtScrollStep cmap (psScrollStep cmap { g with sampleTicks := g.sampleTicks + 1 })))

/-- `n` iterations of the loop body from state `g`; the wall clock at the
`k`-th sample is `ts k`. -/
def runSamples (cmap : Nat → Option Nat) (filter : List ℚ) (ts : Nat → TimeInfo) :
    Nat → RdsGen → RdsGen
  | 0, g => g
  | n + 1, g => (stepSample cmap filter (ts n) (runSamples cmap filter ts n g)).1

/-! ## Characterization lemmas: which fields each scheduling stage touches -/

theorem psAltStep_char (cmap : Nat → Option Nat) (g : RdsGen) :
    ∃ a b ps, psAltStep cmap g =
      { g with
        psAltCounter := a
        psAltIndex := b
        params := { g.params with ps := ps } } := by
  unfold psAltStep RdsGen.setPs
  dsimp only
  split
  · split
    · exact ⟨_, _, _, rfl⟩
    · exact ⟨_, g.psAltIndex, g.params.ps, rfl⟩
  · exact ⟨g.psAltCounter, g.psAltIndex, g.params.ps, rfl⟩

theorem ctIntervalStep_char (t : TimeInfo) (g : RdsGen) :
    ∃ c, (ctIntervalStep t g).1 = { g with ctCounter := c } := by
  unfold ctIntervalStep
  dsimp only
  split
  · split
    · exact ⟨_, rfl⟩
    · exact ⟨_, rfl⟩
  · exact ⟨g.ctCounter, rfl⟩

theorem getRdsCtGroup_some (t : TimeInfo) (g g2 : RdsGen) (b : Nat × Nat × Nat)
    (h : getRdsCtGroup t g = some (g2, b)) :
    g2 = { g with latestMinutes := (t.minute : Int) } := by
  unfold getRdsCtGroup at h
  split at h
  · exact absurd h (by simp)
  · split at h
    · exact absurd h (by simp)
    · rw [Option.some_inj, Prod.mk.injEq] at h
      exact h.1.symm

theorem afBlockC_char (g : RdsGen) :
    ∃ af, (afBlockC g).1 = { g with afPos := af } := by
  unfold afBlockC
  dsimp only
  split
  · exact ⟨g.afPos, rfl⟩
  · exact ⟨_, rfl⟩

theorem fill0A_char (g : RdsGen) :
    ∃ pst af, (fill0A g).1 = { g with psState := pst, afPos := af } := by
  obtain ⟨af, h⟩ := afBlockC_char g
  unfold fill0A
  dsimp only
  rw [h]
  exact ⟨_, af, rfl⟩

theorem fill2A_char (g : RdsGen) :
    ∃ rst, (fill2A g).1 = { g with rtState := rst } := by
  unfold fill2A
  dsimp only
  exact ⟨_, rfl⟩

theorem cycleStep_char (t : TimeInfo) (g : RdsGen) :
    ∃ gi pst rst af st, (cycleStep t g).1 =
      { g with
        groupIndex := gi
        psState := pst
        rtState := rst
        afPos := af
        state := st } := by
  unfold cycleStep
  dsimp only
  split
  · split
    · obtain ⟨pst, af, h⟩ := fill0A_char g
      rw [h]
      exact ⟨g.groupIndex, pst, g.rtState, af, _, rfl⟩
    · split
      · obtain ⟨rst, h⟩ := fill2A_char g
        rw [h]
        exact ⟨g.groupIndex, g.psState, rst, g.afPos, _, rfl⟩
      · split
        · exact ⟨g.groupIndex, g.psState, g.rtState, g.afPos, _, rfl⟩
        · exact ⟨g.groupIndex, g.psState, g.rtState, g.afPos, _, rfl⟩
  · split
    · obtain ⟨pst, af, h⟩ := fill0A_char { g with groupIndex := (g.groupIndex + 1) % g.groupCycle.length }
      rw [h]
      exact ⟨_, pst, g.rtState, af, _, rfl⟩
    · split
      · obtain ⟨rst, h⟩ := fill2A_char { g with groupIndex := (g.groupIndex + 1) % g.groupCycle.length }
        rw [h]
        exact ⟨_, g.psState, rst, g.afPos, _, rfl⟩
      · split
        · exact ⟨_, g.psState, g.rtState, g.afPos, _, rfl⟩
        · exact ⟨_, g.psState, g.rtState, g.afPos, _, rfl⟩

theorem getRdsGroupBlocks_char (cmap : Nat → Option Nat) (t : TimeInfo) (g : RdsGen) :
    ∃ a b ps c lm gi pst rst af st,
      (getRdsGroupBlocks cmap t g).1 =
        { g with
          psAltCounter := a
          psAltIndex := b
          params := { g.params with ps := ps }
          ctCounter := c
          latestMinutes := lm
          groupIndex := gi
          psState := pst
          rtState := rst
          afPos := af
          state := st } := by
  obtain ⟨a, b, ps, h1⟩ := psAltStep_char cmap g
  obtain ⟨c, h2⟩ := ctIntervalStep_char t (psAltStep cmap g)
  unfold getRdsGroupBlocks
  dsimp only
  split
  · rw [h2, h1]
    exact ⟨a, b, ps, c, g.latestMinutes, g.groupIndex, g.psState, g.rtState,
      g.afPos, g.state, rfl⟩
  · split
    · rename_i g2 blocks heq
      rw [getRdsCtGroup_some _ _ _ _ heq, h2, h1]
      exact ⟨a, b, ps, c, _, g.groupIndex, g.psState, g.rtState,
        g.afPos, g.state, rfl⟩
    · obtain ⟨gi, pst, rst, af, st, h3⟩ :=
        cycleStep_char t (ctIntervalStep t (psAltStep cmap g)).1
      rw [h3, h2, h1]
      exact ⟨a, b, ps, c, g.latestMinutes, gi, pst, rst, af, st, rfl⟩
theorem getRdsGroupBlocks_keep (cmap : Nat → Option Nat) (t : TimeInfo) (g : RdsGen) :
    (getRdsGroupBlocks cmap t g).1.sampleCount = g.sampleCount ∧
    (getRdsGroupBlocks cmap t g).1.bitPos = g.bitPos ∧
    (getRdsGroupBlocks cmap t g).1.params.ab = g.params.ab ∧
    (getRdsGroupBlocks cmap t g).1.params.rt = g.params.rt := by
  obtain ⟨a, b, ps, c, lm, gi, pst, rst, af, st, h⟩ := getRdsGroupBlocks_char cmap t g
  rw [h]
  exact ⟨rfl, rfl, rfl, rfl⟩

theorem bitFetchStep_char (cmap : Nat → Option Nat) (filter : List ℚ) (t : TimeInfo)
    (g : RdsGen) :
    (bitFetchStep cmap filter t g).sampleCount
        = (if g.sampleCount ≥ SAMPLES_PER_BIT then 0 else g.sampleCount) ∧
    (bitFetchStep cmap filter t g).bitPos
        = (if g.sampleCount ≥ SAMPLES_PER_BIT then
            (if g.bitPos ≥ BITS_PER_GROUP then 0 else g.bitPos) + 1 else g.bitPos) ∧
    (bitFetchStep cmap filter t g).params.ab = g.params.ab ∧
    (bitFetchStep cmap filter t g).params.rt = g.params.rt := by
  unfold bitFetchStep getRdsGroup
  dsimp only
  split
  case isTrue h1 =>
    split
    case isTrue h2 =>
      obtain ⟨hsc, hbp, hab, hrt⟩ := getRdsGroupBlocks_keep cmap t g
      simp [h1, h2, hsc, hbp, hab, hrt]
    case isFalse h2 =>
      simp [h1, h2]
  case isFalse h1 =>
    simp [h1]

theorem emitStage_char (g : RdsGen) :
    (emitStage g).1.sampleCount = g.sampleCount + 1 ∧
    (emitStage g).1.bitPos = g.bitPos ∧
    (emitStage g).1.params = g.params := by
  unfold emitStage
  exact ⟨rfl, rfl, rfl⟩

theorem psScrollStep_char (cmap : Nat → Option Nat) (g : RdsGen) :
    ∃ pos ps, psScrollStep cmap g =
      { g with
        psScrollPos := pos
        params := { g.params with ps := ps } } := by
  unfold psScrollStep RdsGen.setPs
  split
  · split
    · exact ⟨_, _, rfl⟩
    · exact ⟨g.psScrollPos, g.params.ps, rfl⟩
  · exact ⟨g.psScrollPos, g.params.ps, rfl⟩

theorem rtScrollStep_char (cmap : Nat → Option Nat) (g : RdsGen) :
    ∃ pos prm, rtScrollStep cmap g =
      { g with
        rtScrollPos := pos
        params := prm } := by
  unfold rtScrollStep
  split
  · split
    · exact ⟨_, _, rfl⟩
    · exact ⟨g.rtScrollPos, g.params, rfl⟩
  · exact ⟨g.rtScrollPos, g.params, rfl⟩
theorem psScrollStep_keep (cmap : Nat → Option Nat) (g : RdsGen) :
    (psScrollStep cmap g).sampleCount = g.sampleCount ∧
    (psScrollStep cmap g).bitPos = g.bitPos := by
  obtain ⟨pos, ps, h⟩ := psScrollStep_char cmap g
  rw [h]
  exact ⟨rfl, rfl⟩

theorem rtScrollStep_keep (cmap : Nat → Option Nat) (g : RdsGen) :
    (rtScrollStep cmap g).sampleCount = g.sampleCount ∧
    (rtScrollStep cmap g).bitPos = g.bitPos := by
  obtain ⟨pos, prm, h⟩ := rtScrollStep_char cmap g
  rw [h]
  exact ⟨rfl, rfl⟩

theorem stepSample_counters (cmap : Nat → Option Nat) (filter : List ℚ)
    (t : TimeInfo) (g : RdsGen) :
    (stepSample cmap filter t g).1.sampleCount
        = (if g.sampleCount ≥ SAMPLES_PER_BIT then 0 else g.sampleCount) + 1 ∧
    (stepSample cmap filter t g).1.bitPos
        = (if g.sampleCount ≥ SAMPLES_PER_BIT then
            (if g.bitPos ≥ BITS_PER_GROUP then 0 else g.bitPos) + 1 else g.bitPos) := by
  unfold stepSample
  obtain ⟨he1, he2, _⟩ := emitStage_char (bitFetchStep cmap filter t
    (rtScrollStep cmap (psScrollStep cmap { g with sampleTicks := g.sampleTicks + 1 })))
  obtain ⟨ha, hb, _, _⟩ := bitFetchStep_char cmap filter t
    (rtScrollStep cmap (psScrollStep cmap { g with sampleTicks := g.sampleTicks + 1 }))
  obtain ⟨m1, m2⟩ := rtScrollStep_keep cmap
    (psScrollStep cmap { g with sampleTicks := g.sampleTicks + 1 })
  obtain ⟨k1, k2⟩ := psScrollStep_keep cmap { g with sampleTicks := g.sampleTicks + 1 }
  rw [he1, he2, ha, hb, m1, m2, k1, k2]
  exact ⟨rfl, rfl⟩

theorem runSamples_counters (cmap : Nat → Option Nat) (filter : List ℚ)
    (ts : Nat → TimeInfo) (fsize : Nat) (n : Nat) :
    (runSamples cmap filter ts n (RdsGen.new fsize)).sampleCount
        = (if n = 0 then SAMPLES_PER_BIT else (n - 1) % 192 + 1) ∧
    (runSamples cmap filter ts n (RdsGen.new fsize)).bitPos
        = (if n = 0 then BITS_PER_GROUP else ((n - 1) / 192) % 104 + 1) := by
  induction n with
  | zero => exact ⟨rfl, rfl⟩
  | succ n ih =>
      obtain ⟨ih1, ih2⟩ := ih
      obtain ⟨h1, h2⟩ := stepSample_counters cmap filter (ts n)
        (runSamples cmap filter ts n (RdsGen.new fsize))
      have hrun : runSamples cmap filter ts (n + 1) (RdsGen.new fsize)
          = (stepSample cmap filter (ts n)
              (runSamples cmap filter ts n (RdsGen.new fsize))).1 := rfl
      simp only [hrun, h1, h2, ih1, ih2, SAMPLES_PER_BIT, BITS_PER_GROUP,
        GROUP_LENGTH, BLOCK_SIZE, POLY_DEG]
      clear h1 h2 hrun ih1 ih2
      constructor
      · split_ifs <;> first | exact False.elim (by assumption) | omega
      · split_ifs <;> first | exact False.elim (by assumption) | omega
theorem runSamples_add (cmap : Nat → Option Nat) (filter : List ℚ)
    (ts : Nat → TimeInfo) (a b : Nat) (g : RdsGen) :
    runSamples cmap filter ts (a + b) g =
      runSamples cmap filter (fun k => ts (a + k)) b (runSamples cmap filter ts a g) := by
  induction b with
  | zero => rfl
  | succ b ih =>
      show (stepSample cmap filter (ts (a + b)) (runSamples cmap filter ts (a + b) g)).1 = _
      rw [ih]
      rfl

theorem shaper_cadence_aux (cmap : Nat → Option Nat) (filter : List ℚ)
    (ts : Nat → TimeInfo) (fsize m : Nat) :
    ((runSamples cmap filter ts m (RdsGen.new fsize)).sampleCount ≥ SAMPLES_PER_BIT
        ↔ m % 192 = 0) ∧
    (((runSamples cmap filter ts m (RdsGen.new fsize)).sampleCount ≥ SAMPLES_PER_BIT ∧
        (runSamples cmap filter ts m (RdsGen.new fsize)).bitPos ≥ BITS_PER_GROUP)
        ↔ m % 19968 = 0) := by
  obtain ⟨h1, h2⟩ := runSamples_counters cmap filter ts fsize m
  rw [h1, h2]
  simp only [SAMPLES_PER_BIT, BITS_PER_GROUP, GROUP_LENGTH, BLOCK_SIZE, POLY_DEG]
  constructor
  · split_ifs <;> first | exact False.elim (by assumption) | omega
  · split_ifs <;> first | exact False.elim (by assumption) | omega

theorem setRtP_ab (cmap : Nat → Option Nat) (input : List Nat) (p : RdsParams)
    (h : p.abAuto = true) :
    ((setRtP cmap input p).ab = !p.ab ↔ fillRdsString cmap RT_LENGTH input ≠ p.rt) ∧
    ((setRtP cmap input p).rt =
      if fillRdsString cmap RT_LENGTH input ≠ p.rt
      then fillRdsString cmap RT_LENGTH input else p.rt) := by
  unfold setRtP
  by_cases hne : fillRdsString cmap RT_LENGTH input ≠ p.rt
  · simp [hne, h]
  · simp only [ne_eq, not_not] at hne
    simp [hne]
theorem rtScroll_flips_ab (cmap : Nat → Option Nat) (filter : List ℚ)
    (t : TimeInfo) (g : RdsGen) (text : List Nat)
    (hs : g.rtScroll = some text)
    (hint : (g.sampleTicks + 1) % g.rtScrollIntervalSamples = 0)
    (hab : g.params.abAuto = true) :
    ((stepSample cmap filter t g).1.params.ab = !g.params.ab
      ↔ fillRdsString cmap RT_LENGTH (scrollWindow text g.rtScrollPos RT_LENGTH)
          ≠ g.params.rt) ∧
    ((stepSample cmap filter t g).1.params.rt =
      if fillRdsString cmap RT_LENGTH (scrollWindow text g.rtScrollPos RT_LENGTH)
          ≠ g.params.rt
      then fillRdsString cmap RT_LENGTH (scrollWindow text g.rtScrollPos RT_LENGTH)
      else g.params.rt) := by
  obtain ⟨pos, s, hP⟩ := psScrollStep_char cmap { g with sampleTicks := g.sampleTicks + 1 }
  have hfire : rtScrollStep cmap (psScrollStep cmap { g with sampleTicks := g.sampleTicks + 1 })
      = { psScrollStep cmap { g with sampleTicks := g.sampleTicks + 1 } with
          rtScrollPos := (g.rtScrollPos + 1) % (text ++ [0x20, 0x20, 0x20]).length
          params := setRtP cmap (scrollWindow text g.rtScrollPos RT_LENGTH)
            (psScrollStep cmap { g with sampleTicks := g.sampleTicks + 1 }).params } := by
    rw [hP]
    unfold rtScrollStep
    dsimp only
    rw [hs]
    dsimp only
    rw [if_pos hint]
  unfold stepSample
  rw [(emitStage_char (bitFetchStep cmap filter t (rtScrollStep cmap (psScrollStep cmap
    { g with sampleTicks := g.sampleTicks + 1 })))).2.2]
  rw [(bitFetchStep_char cmap filter t (rtScrollStep cmap (psScrollStep cmap
    { g with sampleTicks := g.sampleTicks + 1 }))).2.2.1]
  rw [(bitFetchStep_char cmap filter t (rtScrollStep cmap (psScrollStep cmap
    { g with sampleTicks := g.sampleTicks + 1 }))).2.2.2]
  rw [hfire, hP]
  dsimp only
  have hp : ({ g.params with ps := s } : RdsParams).abAuto = true := hab
  obtain ⟨ha, hr⟩ := setRtP_ab cmap (scrollWindow text g.rtScrollPos RT_LENGTH)
    { g.params with ps := s } hp
  exact ⟨ha, hr⟩

/-- C6 — in the bit-to-sample shaper, starting from a fresh generator, the
state reached after `m` output samples triggers the bit fetch (the
`sample_count >= SAMPLES_PER_BIT` branch, which consumes exactly one bit)
on the next sample iff `m % 192 = 0`, and triggers group production (bit
buffer exhausted, `bit_pos >= BITS_PER_GROUP`) iff `m % 19968 = 0`: a new
bit is consumed exactly once every 192 output samples, a new 104-bit group
is produced exactly when the previous group's bits are exhausted, and every
group occupies exactly 19968 = 104 × 192 consecutive output samples at
228 kHz.  `runSamples` threads the state exactly as any sequence of
`get_rds_samples` calls does (`runSamples_add`), so the cadence is
independent of call chunking. -/
theorem shaper_bit_group_cadence (cmap : Nat → Option Nat) (filter : List ℚ)
    (ts : Nat → TimeInfo) (fsize m : Nat) :
    ((runSamples cmap filter ts m (RdsGen.new fsize)).sampleCount ≥ SAMPLES_PER_BIT
        ↔ m % 192 = 0) ∧
    (((runSamples cmap filter ts m (RdsGen.new fsize)).sampleCount ≥ SAMPLES_PER_BIT ∧
        (runSamples cmap filter ts m (RdsGen.new fsize)).bitPos ≥ BITS_PER_GROUP)
        ↔ m % 19968 = 0) :=
  shaper_cadence_aux cmap filter ts fsize m

/-- C10 — RT-scroll rewrites are applied through `set_rt`: at every sample
tick hitting the scroll interval while RT-scroll is enabled and `ab_auto`
is set, the step flips `ab` iff the character-mapped 64-byte form of the
newly advanced window differs from the current RT buffer (and stores the
window as the new RT in that case), so `ab` toggles at the scroll rate, not
only on explicit radiotext changes. -/
theorem rtScroll_toggles_ab (cmap : Nat → Option Nat) (filter : List ℚ)
    (t : TimeInfo) (g : RdsGen) (text : List Nat)
    (hs : g.rtScroll = some text)
    (hint : (g.sampleTicks + 1) % g.rtScrollIntervalSamples = 0)
    (hab : g.params.abAuto = true) :
    ((stepSample cmap filter t g).1.params.ab = !g.params.ab
      ↔ fillRdsString cmap RT_LENGTH (scrollWindow text g.rtScrollPos RT_LENGTH)
          ≠ g.params.rt) ∧
    ((stepSample cmap filter t g).1.params.rt =
      if fillRdsString cmap RT_LENGTH (scrollWindow text g.rtScrollPos RT_LENGTH)
          ≠ g.params.rt
      then fillRdsString cmap RT_LENGTH (scrollWindow text g.rtScrollPos RT_LENGTH)
      else g.params.rt) :=
  rtScroll_flips_ab cmap filter t g text hs hint hab

def cmapW10 : Nat → Option Nat := fun c => if c < 256 then some c else none

def timeW10 : TimeInfo := ⟨60000, 0, 0, 0⟩

def genW10 : RdsGen :=
  { RdsGen.new 1 with rtScroll := some [65, 66], rtScrollIntervalSamples := 1 }

/-- Witness for C10 at a concrete scrolling state (text "AB", interval 1). -/
theorem rtScroll_toggles_ab_witness :
    ((stepSample cmapW10 [] timeW10 genW10).1.params.ab = !genW10.params.ab
      ↔ fillRdsString cmapW10 RT_LENGTH (scrollWindow [65, 66] genW10.rtScrollPos RT_LENGTH)
          ≠ genW10.params.rt) ∧
    ((stepSample cmapW10 [] timeW10 genW10).1.params.rt =
      if fillRdsString cmapW10 RT_LENGTH (scrollWindow [65, 66] genW10.rtScrollPos RT_LENGTH)
          ≠ genW10.params.rt
      then fillRdsString cmapW10 RT_LENGTH (scrollWindow [65, 66] genW10.rtScrollPos RT_LENGTH)
      else genW10.params.rt) :=
  rtScroll_toggles_ab cmapW10 [] timeW10 genW10 [65, 66] rfl rfl rfl

/-! ## The output resampler (`OutputResampler`, audio_io.rs lines 52–91)

`next_sample` takes a fetch callback; here the callback is modelled as a
stream of source samples indexed by the number of pulls so far, threaded as
the second component of the state.  The `f32` step 228000/192000 = 19/16 and
all phase values are exactly representable (multiples of 1/16 below 4), so
the `ℚ` arithmetic coincides with the `f32` arithmetic of the source. -/

structure OutputResampler where
  phase : ℚ
  step : ℚ
  prev : ℚ
  next : ℚ
  hasNext : Bool
deriving Repr

def OutputResampler.new (internalRate outputRate : ℚ) : OutputResampler :=
  { phase := 0, step := internalRate / outputRate, prev := 0, next := 0, hasNext := false }

def reduceLoop (stream : Nat → ℚ) (phase prev next : ℚ) (pulls : Nat) :
    ℚ × ℚ × ℚ × Nat :=
  if h : 1 ≤ phase then
    reduceLoop stream (phase - 1) next (stream pulls) (pulls + 1)
  else (phase, prev, next, pulls)
termination_by (⌈phase⌉).toNat
decreasing_by
  have h1 : ⌈phase - 1⌉ = ⌈phase⌉ - 1 := by
    rw [show (1 : ℚ) = ((1 : ℤ) : ℚ) by norm_num, Int.ceil_sub_int]
  have h2 : (1 : ℤ) ≤ ⌈phase⌉ := by
    have := Int.ceil_le_ceil h
    simpa using this
  simp only [h1]
  omega

def nextSampleR (stream : Nat → ℚ) (st : OutputResampler × Nat) :
    (OutputResampler × Nat) × ℚ :=
  let rs := st.1
  let r0 := if rs.hasNext then (rs.next, st.2) else (stream st.2, st.2 + 1)
  let r := reduceLoop stream rs.phase rs.prev r0.1 r0.2
  let t := r.1
  let sample := r.2.1 + (r.2.2.1 - r.2.1) * t
  (({ rs with phase := t + rs.step, prev := r.2.1, next := r.2.2.1, hasNext := true },
    r.2.2.2), sample)

def runResampler (stream : Nat → ℚ) : Nat → OutputResampler × Nat
  | 0 => (OutputResampler.new 228000 192000, 0)
  | n + 1 => (nextSampleR stream (runResampler stream n)).1

theorem reduceLoop_base (stream : Nat → ℚ) (phase prev next : ℚ) (pulls : Nat)
    (h : ¬ 1 ≤ phase) :
    reduceLoop stream phase prev next pulls = (phase, prev, next, pulls) := by
  rw [reduceLoop]
  simp [h]

theorem reduceLoop_iter (stream : Nat → ℚ) (phase prev next : ℚ) (pulls : Nat)
    (h : 1 ≤ phase) :
    reduceLoop stream phase prev next pulls =
      reduceLoop stream (phase - 1) next (stream pulls) (pulls + 1) := by
  rw [reduceLoop]
  simp [h]

theorem runResampler_zero (stream : Nat → ℚ) :
    runResampler stream 0 = (OutputResampler.new 228000 192000, 0) := rfl

theorem runResampler_succ (stream : Nat → ℚ) (n : Nat) :
    runResampler stream (n + 1) = (nextSampleR stream (runResampler stream n)).1 := rfl

theorem runResampler_inv (stream : Nat → ℚ) (n : Nat) (hn : 1 ≤ n) :
    (runResampler stream n).1.step = 19/16 ∧
    (runResampler stream n).1.hasNext = true ∧
    19/16 ≤ (runResampler stream n).1.phase ∧
    (runResampler stream n).1.phase < 1 + 19/16 ∧
    1 ≤ (runResampler stream n).2 ∧
    (runResampler stream n).1.phase
      = (n : ℚ) * (19/16) + 1 - ((runResampler stream n).2 : ℚ) := by
  induction n with
  | zero => omega
  | succ n ih =>
      rcases Nat.eq_zero_or_pos n with h0 | h0
      · subst h0
        rw [runResampler_succ, runResampler_zero]
        unfold nextSampleR OutputResampler.new
        dsimp only
        rw [reduceLoop_base stream _ _ _ _ (by norm_num)]
        norm_num
      · obtain ⟨i1, i2, i3, i4, i5, i6⟩ := ih h0
        rw [runResampler_succ]
        unfold nextSampleR
        dsimp only
        rw [i2]
        simp only [if_true]
        by_cases hp2 : (runResampler stream n).1.phase < 2
        · rw [reduceLoop_iter stream _ _ _ _ (by linarith),
            reduceLoop_base stream _ _ _ _ (by push_neg; linarith)]
          dsimp only
          rw [i1]
          refine ⟨rfl, trivial, by linarith, by linarith, by omega, ?_⟩
          rw [i6]
          push_cast
          ring
        · push_neg at hp2
          rw [reduceLoop_iter stream _ _ _ _ (by linarith),
            reduceLoop_iter stream _ _ _ _ (by linarith),
            reduceLoop_base stream _ _ _ _ (by push_neg; linarith)]
          dsimp only
          rw [i1]
          refine ⟨rfl, trivial, by linarith, by linarith, by omega, ?_⟩
          rw [i6]
          push_cast
          ring

/-- C7 — the output resampler (228 kHz → 192 kHz, step 228000/192000 =
19/16): after every call the stored phase equals the interpolation
coefficient of that call plus the step, so the fractional phase used by the
advance-then-reduce step of every call remains in [0, 1) (first conjunct,
stated as `phase - 19/16 ∈ [0, 1)`), and over any `n ≥ 1` output samples
the number of source pulls equals `⌊n · 19/16⌋` or `⌊n · 19/16⌋ − 1`, i.e.
`⌊n·r⌋ ± 1`. -/
theorem resampler_phase_and_pulls (stream : Nat → ℚ) (n : Nat) (hn : 1 ≤ n) :
    (0 ≤ (runResampler stream n).1.phase - 19/16 ∧
      (runResampler stream n).1.phase - 19/16 < 1) ∧
    (((runResampler stream n).2 : ℤ) = ⌊(n : ℚ) * (19/16)⌋ ∨
      ((runResampler stream n).2 : ℤ) = ⌊(n : ℚ) * (19/16)⌋ - 1) := by
  obtain ⟨i1, i2, i3, i4, i5, i6⟩ := runResampler_inv stream n hn
  constructor
  · constructor
    · linarith
    · linarith
  · have hP : ((runResampler stream n).2 : ℚ)
        = (n : ℚ) * (19/16) + 1 - (runResampler stream n).1.phase := by linarith
    have hub : ((runResampler stream n).2 : ℤ) ≤ ⌊(n : ℚ) * (19/16)⌋ := by
      rw [Int.le_floor]
      push_cast
      linarith
    have hlb : ⌊(n : ℚ) * (19/16)⌋ ≤ ((runResampler stream n).2 : ℤ) + 1 := by
      have hfl : (⌊(n : ℚ) * (19/16)⌋ : ℚ) ≤ (n : ℚ) * (19/16) := Int.floor_le _
      by_contra hc
      push_neg at hc
      have hc2 : ((runResampler stream n).2 : ℚ) + 2 ≤ (⌊(n : ℚ) * (19/16)⌋ : ℚ) := by
        exact_mod_cast hc
      linarith
    omega

def streamW7 : Nat → ℚ := fun _ => 0

/-- Witness for C7 at `n = 2`. -/
theorem resampler_phase_and_pulls_witness :
    (0 ≤ (runResampler streamW7 2).1.phase - 19/16 ∧
      (runResampler streamW7 2).1.phase - 19/16 < 1) ∧
    (((runResampler streamW7 2).2 : ℤ) = ⌊(2 : ℚ) * (19/16)⌋ ∨
      ((runResampler streamW7 2).2 : ℤ) = ⌊(2 : ℚ) * (19/16)⌋ - 1) :=
  resampler_phase_and_pulls streamW7 2 (by norm_num)

/-! ## The look-ahead limiter (`LiveMpx::next_sample` tail and
`set_limiter_lookahead`, audio_io.rs lines 258–261 and 378–400)

The limiter state is the `VecDeque` FIFO, modelled as a list (front first).
`limiterStep` is the enabled-limiter branch for one incoming scaled sample;
`limiterRun` threads it over a sample sequence from an initial buffer. -/

def maxAbs (l : List ℚ) : ℚ :=
  l.foldl (fun m v => if |v| > m then |v| else m) 0

def limiterStep (la : Nat) (thr : ℚ) (buf : List ℚ) (x : ℚ) : List ℚ × ℚ :=
  let buf1 := buf ++ [x]
  if buf1.length < la then (buf1, 0)
  else
    let buf2 := if buf1.length > la then buf1.tail else buf1
    let m := maxAbs buf2
    let t := max thr (1/10)
    let gain := if m > t then t / m else 1
    (buf2, buf2.headD 0 * gain)

def setLimiterLookahead (samples : Nat) : Nat := min (max samples 1) 2048

def limiterRun (la : Nat) (thr : ℚ) : List ℚ → List ℚ → List ℚ
  | _, [] => []
  | buf, x :: xs =>
      (limiterStep la thr buf x).2 :: limiterRun la thr (limiterStep la thr buf x).1 xs

theorem limiterStep_char (la : Nat) (thr : ℚ) (buf : List ℚ) (x : ℚ)
    (hlen : buf.length ≤ la) :
    (limiterStep la thr buf x).1 =
      (if buf.length + 1 < la then buf ++ [x]
        else (buf ++ [x]).drop (buf.length + 1 - la)) ∧
    (limiterStep la thr buf x).2 =
      (if buf.length + 1 < la then 0
        else ((buf ++ [x]).drop (buf.length + 1 - la)).headD 0 *
          (if maxAbs ((buf ++ [x]).drop (buf.length + 1 - la)) > max thr (1/10)
            then max thr (1/10) / maxAbs ((buf ++ [x]).drop (buf.length + 1 - la))
            else 1)) := by
  unfold limiterStep
  dsimp only
  simp only [List.length_append, List.length_cons, List.length_nil]
  by_cases h1 : buf.length + 1 < la
  · simp only [if_pos h1]
    exact ⟨by trivial, by trivial⟩
  · simp only [if_neg h1]
    by_cases h2 : buf.length + 1 > la
    · have he : buf.length = la := by omega
      have hd : buf.length + 1 - la = 1 := by omega
      simp only [if_pos h2, hd, List.drop_one]
      exact ⟨by trivial, by trivial⟩
    · have hd : buf.length + 1 - la = 0 := by omega
      simp only [if_neg h2, hd, List.drop_zero]
      exact ⟨by trivial, by trivial⟩

theorem limiterRun_spec (la : Nat) (thr : ℚ) (hla : 1 ≤ la) :
    ∀ (xs buf : List ℚ), buf.length ≤ la →
      ∀ k, k < xs.length →
        (limiterRun la thr buf xs).getD k 0 =
          if buf.length + k + 1 < la then 0
          else
            ((buf ++ xs.take (k + 1)).drop (buf.length + k + 1 - la)).headD 0 *
              (if maxAbs ((buf ++ xs.take (k + 1)).drop (buf.length + k + 1 - la))
                  > max thr (1/10)
               then max thr (1/10) /
                  maxAbs ((buf ++ xs.take (k + 1)).drop (buf.length + k + 1 - la))
               else 1) := by
  intro xs
  induction xs with
  | nil =>
      intro buf _ k hk
      exact absurd hk (by simp)
  | cons x xs ih =>
      intro buf hbuf k hk
      obtain ⟨hs1, hs2⟩ := limiterStep_char la thr buf x hbuf
      match k with
      | 0 =>
          show (limiterStep la thr buf x).2 = _
          rw [hs2]
          simp only [List.take_succ_cons, List.take_zero]
      | k + 1 =>
          show (limiterRun la thr (limiterStep la thr buf x).1 xs).getD k 0 = _
          by_cases h1 : buf.length + 1 < la
          · have hlen2 : ((limiterStep la thr buf x).1).length ≤ la := by
              rw [hs1, if_pos h1]
              simp only [List.length_append, List.length_cons, List.length_nil]
              omega
            have := ih ((limiterStep la thr buf x).1) hlen2 k (by simpa using hk)
            rw [this, hs1, if_pos h1]
            simp only [List.length_append, List.length_cons, List.length_nil,
              List.take_succ_cons, List.append_assoc, List.cons_append, List.nil_append]
            have harith : buf.length + 1 + k + 1 = buf.length + (k + 1) + 1 := by omega
            rw [harith]
          · have hle : la ≤ buf.length + 1 := by omega
            have hlen2 : ((limiterStep la thr buf x).1).length = la := by
              rw [hs1, if_neg h1]
              simp only [List.length_drop, List.length_append, List.length_cons,
                List.length_nil]
              omega
            have := ih ((limiterStep la thr buf x).1) (le_of_eq hlen2) k
              (by simpa using hk)
            rw [this, hlen2, hs1, if_neg h1]
            have hc1 : ¬ la + k + 1 < la := by omega
            have hc2 : ¬ buf.length + (k + 1) + 1 < la := by omega
            rw [if_neg hc1, if_neg hc2]
            have hwin :
                (((buf ++ [x]).drop (buf.length + 1 - la) ++ xs.take (k + 1)).drop
                    (la + k + 1 - la)) =
                ((buf ++ (x :: xs).take (k + 1 + 1)).drop
                    (buf.length + (k + 1) + 1 - la)) := by
              have hd1 : buf.length + 1 - la ≤ (buf ++ [x]).length := by
                simp only [List.length_append, List.length_cons, List.length_nil]
                omega
              rw [← List.drop_append_of_le_length (by omega)]
              rw [List.drop_drop]
              simp only [List.take_succ_cons, List.append_assoc, List.cons_append,
                List.nil_append]
              congr 1
              omega
            rw [hwin]

/-- C8 — with the limiter enabled (the `limiter_enabled` branch of
`LiveMpx::next_sample`, audio_io.rs lines 379–399): the first
`lookahead − 1` outputs are exactly 0; from the sample at which the FIFO
first holds `lookahead` entries onward, each output is the FIFO's front
sample scaled by `threshold/max` when the absolute maximum over the window
exceeds the threshold and unchanged otherwise, where the effective
threshold is `max(configured, 0.1)` and the lookahead is
`set_limiter_lookahead`'s clamp of the configured value to [1, 2048]. -/
theorem limiter_outputs (la0 : Nat) (thr : ℚ) (inputs : List ℚ) (k : Nat)
    (hk : k < inputs.length) :
    1 ≤ setLimiterLookahead la0 ∧ setLimiterLookahead la0 ≤ 2048 ∧
    setLimiterLookahead la0 = min (max la0 1) 2048 ∧
    ((limiterRun (setLimiterLookahead la0) thr [] inputs).getD k 0 =
      if k + 1 < setLimiterLookahead la0 then 0
      else
        ((inputs.take (k + 1)).drop (k + 1 - setLimiterLookahead la0)).headD 0 *
          (if maxAbs ((inputs.take (k + 1)).drop (k + 1 - setLimiterLookahead la0))
              > max thr (1/10)
           then max thr (1/10) /
              maxAbs ((inputs.take (k + 1)).drop (k + 1 - setLimiterLookahead la0))
           else 1)) := by
  have hla : 1 ≤ setLimiterLookahead la0 := by
    unfold setLimiterLookahead
    omega
  refine ⟨hla, by unfold setLimiterLookahead; omega, rfl, ?_⟩
  have := limiterRun_spec (setLimiterLookahead la0) thr hla inputs [] (by simp) k hk
  simpa using this

/-- Witness for C8: lookahead 2, threshold 1, inputs [5, 7, 0], output 1. -/
theorem limiter_outputs_witness :
    1 ≤ setLimiterLookahead 2 ∧ setLimiterLookahead 2 ≤ 2048 ∧
    setLimiterLookahead 2 = min (max 2 1) 2048 ∧
    ((limiterRun (setLimiterLookahead 2) 1 [] [5, 7, 0]).getD 1 0 =
      if 1 + 1 < setLimiterLookahead 2 then 0
      else
        (([5, 7, 0].take (1 + 1)).drop (1 + 1 - setLimiterLookahead 2)).headD 0 *
          (if maxAbs (([5, 7, 0].take (1 + 1)).drop (1 + 1 - setLimiterLookahead 2))
              > max 1 (1/10)
           then max 1 (1/10) /
              maxAbs (([5, 7, 0].take (1 + 1)).drop (1 + 1 - setLimiterLookahead 2))
           else 1)) :=
  limiter_outputs 2 1 [5, 7, 0] 1 (by norm_num)

/-! ## The MPX composition and the 19 kHz pilot (C1)

`FmMpx::get_samples` (fm_mpx.rs, the offline/file-writer path) and
`LiveMpx::next_sample` (audio_io.rs, the realtime path) compose the MPX
sample differently: the live path always adds the pilot and 38 kHz terms;
the offline path returns immediately after the RDS scaling when there is no
audio source, and adds the pilot only inside its `channels > 1` block. -/

/-- The 38 kHz carrier table (fm_mpx.rs lines 12–19 and audio_io.rs lines
22–29), with the source's decimal literals as exact rationals.  (The `f32`
constants round these decimals to the nearest float; the entries the claims
rely on — 0, ±1/2, ±1 in `CARRIER_19` — are exactly representable and
identical in both readings.) -/
def CARRIER_38 : List ℚ :=
  [0, 8660254037844386/10^16, 8660254037844388/10^16,
   12246467991473532/10^32, -8660254037844384/10^16, -8660254037844386/10^16]

/-- The 19 kHz pilot carrier table (fm_mpx.rs lines 21–34 and audio_io.rs
lines 31–44). -/
def CARRIER_19 : List ℚ :=
  [0, 1/2, 8660254037844386/10^16, 1, 8660254037844388/10^16, 1/2,
   12246467991473532/10^32, -1/2, -8660254037844384/10^16, -1,
   -8660254037844386/10^16, -1/2]

/-- `f32::EPSILON` = 2^-23. -/
def f32Eps : ℚ := 1 / 2 ^ 23

/-- The no-audio-source path of `FmMpx::get_samples` (fm_mpx.rs lines
231–241): the RDS samples are scaled by `rds_level` when it differs from 1
by more than `f32::EPSILON`, and the function returns — the pilot/stereo
block (lines 343–355) is guarded by `channels > 1` and never reached. -/
def fmMpxGetSamplesNoAudio (rdsLevel : ℚ) (rdsBuf : List ℚ) : List ℚ :=
  if |rdsLevel - 1| > f32Eps then rdsBuf.map (· * rdsLevel) else rdsBuf

/-- The per-tick MPX composition of `LiveMpx::next_sample` (audio_io.rs
lines 365–367), with the processed mono/stereo values as inputs.  4.05 is
the source constant (its `f32` rounding differs from 81/20 by < 2^-22;
nothing below depends on its exact value). -/
def liveComposeMpx (rdsLevel rdsSample mono stereo stereoSeparation pilotLevel : ℚ)
    (phase38 phase19 : Nat) : ℚ :=
  let mpx := rdsLevel * rdsSample + 405/100 * mono
  mpx + (405/100 * stereoSeparation) * CARRIER_38.getD phase38 0 * stereo
    + pilotLevel * CARRIER_19.getD phase19 0

/-- Modelled from the spec: the claimed per-tick composition `mpx =
rds_level × rds_sample + 4.05 × mono + 4.05 × stereo_sep × C38[phase_38] ×
stereo + pilot_level × C19[phase_19]` (spec §4.7 step 5), asserted by the
claim to hold for every 228 kHz tick, in particular on the offline
file-writer path. -/
def mpxComposeSpec (rdsLevel rdsSample mono stereo stereoSep pilotLevel : ℚ)
    (phase38 phase19 : Nat) : ℚ :=
  rdsLevel * rdsSample + 405/100 * mono +
    405/100 * stereoSep * CARRIER_38.getD phase38 0 * stereo +
    pilotLevel * CARRIER_19.getD phase19 0

/-- C1 — evaluation at the failing input.  The live path does include the
pilot term additively on every tick (first conjunct: zeroing `pilot_level`
removes exactly `pilot_level × C19[phase_19]`).  But the offline
`FmMpx::get_samples` path with no audio source returns right after the
`rds_level` scaling: with the default `rds_level = 1` the output buffer is
the RDS buffer itself (second conjunct), while the claimed compose formula
with default `pilot_level = 0.9` yields `0.9 × C19[1] = 0.45` at the second
tick even with silent RDS/mono/stereo (third conjunct) — the 19 kHz pilot
is absent from the offline no-audio output (fourth conjunct), contradicting
the claim (and spec scenario 3). -/
theorem fmMpx_noAudio_missing_pilot :
    (∀ (rdsLevel rds mono stereo sep pilot : ℚ) (p38 p19 : Nat),
      liveComposeMpx rdsLevel rds mono stereo sep pilot p38 p19 -
        liveComposeMpx rdsLevel rds mono stereo sep 0 p38 p19 =
          pilot * CARRIER_19.getD p19 0) ∧
    (∀ buf : List ℚ, fmMpxGetSamplesNoAudio 1 buf = buf) ∧
    mpxComposeSpec 1 0 0 0 1 (9/10) 0 1 = 9/20 ∧
    (fmMpxGetSamplesNoAudio 1 [0, 0]).getD 1 0 ≠ mpxComposeSpec 1 0 0 0 1 (9/10) 0 1 := by
  have hints : ∀ buf : List ℚ, fmMpxGetSamplesNoAudio 1 buf = buf := by
    intro buf
    unfold fmMpxGetSamplesNoAudio f32Eps
    norm_num
  have hspec : mpxComposeSpec 1 0 0 0 1 (9/10) 0 1 = 9/20 := by
    unfold mpxComposeSpec CARRIER_38 CARRIER_19
    norm_num
  refine ⟨?_, hints, hspec, ?_⟩
  · intro rdsLevel rds mono stereo sep pilot p38 p19
    unfold liveComposeMpx
    ring
  · rw [hints, hspec]
    norm_num

end PulseFM
